import Mathlib

/-!
Verification of the geomstats core: the hyperbolic space H_n embedded in
Minkowski space (geomstats/hyperbolic_space.py) and the general linear
group GL(n) (geomstats/geometry/general_linear.py).

The hyperbolic functions are embedded twice:
* an `Option`-valued version reproducing the Python control flow, where
  `Option.none` models a raised exception (`assert` failure); note that
  `HyperbolicSpace.belongs` returns Python `None` after its internal
  assertion passes, and every caller executes `assert self.belongs(...)`,
  which asserts that `None` and therefore always fails;
* a `_core` version: the computation performed by the body after the
  membership assertions (the semantics of the source under `python -O`,
  i.e. with assert statements discounted).
-/

namespace Geomstats

noncomputable section Hyperbolic

/-- `TOLERANCE = 1e-12` from hyperbolic_space.py. -/
def TOLERANCE : ℝ := 1e-12

/-- `EPSILON = 1e-6` from hyperbolic_space.py. -/
def EPSILON : ℝ := 1e-6

/-- `SINH_TAYLOR_COEFFS` from hyperbolic_space.py:
`[0., 1., 0., 1/3!, 0., 1/5!, 0., 1/7!, 0., 1/9!]`. -/
def SINH_TAYLOR_COEFFS : List ℝ :=
  [0, 1,
   0, 1 / (Nat.factorial 3 : ℝ),
   0, 1 / (Nat.factorial 5 : ℝ),
   0, 1 / (Nat.factorial 7 : ℝ),
   0, 1 / (Nat.factorial 9 : ℝ)]

/-- `COSH_TAYLOR_COEFFS` from hyperbolic_space.py:
`[1., 0., 1/2!, 0., 1/4!, 0., 1/6!, 0., 1/8!, 0.]`. -/
def COSH_TAYLOR_COEFFS : List ℝ :=
  [1, 0,
   1 / (Nat.factorial 2 : ℝ), 0,
   1 / (Nat.factorial 4 : ℝ), 0,
   1 / (Nat.factorial 6 : ℝ), 0,
   1 / (Nat.factorial 8 : ℝ), 0]

/-- `INV_SINH_TAYLOR_COEFFS` from hyperbolic_space.py. -/
def INV_SINH_TAYLOR_COEFFS : List ℝ :=
  [0, -(1 / 6),
   0, 7 / 360,
   0, -(31 / 15120),
   0, 127 / 604800]

/-- `INV_TANH_TAYLOR_COEFFS` from hyperbolic_space.py. -/
def INV_TANH_TAYLOR_COEFFS : List ℝ :=
  [0, 1 / 3,
   0, -(1 / 45),
   0, 2 / 945,
   0, -(1 / 4725)]

/-- `np.dot` on real vectors of equal length. -/
def dot {m : ℕ} (a b : Fin m → ℝ) : ℝ := ∑ i, a i * b i

/-- `embedding_inner_product(vector_a, vector_b)`:
`np.dot(vector_a, vector_b) - 2 * vector_a[0] * vector_b[0]`. -/
def embedding_inner_product {n : ℕ} (vector_a vector_b : Fin (n + 1) → ℝ) : ℝ :=
  dot vector_a vector_b - 2 * vector_a 0 * vector_b 0

/-- `embedding_squared_norm(vector) = embedding_inner_product(vector, vector)`. -/
def embedding_squared_norm {n : ℕ} (vector : Fin (n + 1) → ℝ) : ℝ :=
  embedding_inner_product vector vector

/-- The Python value `None`, which is the (implicit) return value of
`HyperbolicSpace.belongs`. -/
inductive PyNone
  | none

/-- The truthiness of the Python value `None`: it is falsy. -/
def PyNone.toBool : PyNone → Bool := fun _ => false

namespace HyperbolicSpace

/-- `HyperbolicSpace.belongs(point, tolerance=TOLERANCE)`: executes
`assert abs(embedding_squared_norm(point) + 1) < tolerance` and, when the
assertion passes, falls off the end of the function body, returning the
Python value `None`.  `Option.none` models the raised `AssertionError`. -/
def belongs {n : ℕ} (point : Fin (n + 1) → ℝ) (tolerance : ℝ) : Option PyNone :=
  if |embedding_squared_norm point + 1| < tolerance then some PyNone.none else none

/-- The statement `assert v` for a Python value `v` of type `NoneType`:
raises `AssertionError` when `v` is falsy (which `None` always is). -/
def assertVal (v : PyNone) : Option Unit :=
  if v.toBool then some () else none

/-- The caller-side statement `assert self.belongs(point)` appearing in the
hyperbolic-space operations (with the default tolerance). -/
def assertBelongs {n : ℕ} (point : Fin (n + 1) → ℝ) : Option Unit :=
  (belongs point TOLERANCE).bind assertVal

/-- `HyperbolicSpace.intrinsic_to_extrinsic_coords(point_intrinsic)`:
builds the length-`d+1` vector whose entry `0` is
`sqrt(1 + np.dot(point_intrinsic, point_intrinsic))` and whose entries
`1..d` are the entries of `point_intrinsic`.  (No assertion here.) -/
def intrinsic_to_extrinsic_coords {d : ℕ} (point_intrinsic : Fin d → ℝ) :
    Fin (d + 1) → ℝ :=
  Fin.cons (Real.sqrt (1 + dot point_intrinsic point_intrinsic)) point_intrinsic

/-- `HyperbolicSpace.extrinsic_to_intrinsic_coords(point_extrinsic)`:
`assert self.belongs(point_extrinsic)` then `return point_extrinsic[1:]`. -/
def extrinsic_to_intrinsic_coords {n : ℕ} (point_extrinsic : Fin (n + 1) → ℝ) :
    Option (Fin n → ℝ) :=
  (assertBelongs point_extrinsic).map fun _ => fun i => point_extrinsic i.succ

/-- Body of `HyperbolicSpace.projection_to_tangent_space` after its
membership assertion:
`tangent_vec = vector - inner_prod * ref_point / sq_norm_ref_point`. -/
def projection_to_tangent_space_core {n : ℕ} (ref_point vector : Fin (n + 1) → ℝ) :
    Fin (n + 1) → ℝ :=
  fun i => vector i -
    embedding_inner_product ref_point vector * ref_point i /
      embedding_squared_norm ref_point

/-- `HyperbolicSpace.projection_to_tangent_space(ref_point, vector)` with its
leading `assert self.belongs(ref_point)`. -/
def projection_to_tangent_space {n : ℕ} (ref_point vector : Fin (n + 1) → ℝ) :
    Option (Fin (n + 1) → ℝ) :=
  (assertBelongs ref_point).map fun _ =>
    projection_to_tangent_space_core ref_point vector

/-- `coef_1` of `riemannian_exp`: the truncated cosh Taylor polynomial on the
`norm_tangent_vec < epsilon` branch, `np.cosh` otherwise. -/
def riemannian_exp_coef_1 (r epsilon : ℝ) : ℝ :=
  if r < epsilon then
    1 + COSH_TAYLOR_COEFFS.getD 2 0 * r ^ 2
      + COSH_TAYLOR_COEFFS.getD 4 0 * r ^ 4
      + COSH_TAYLOR_COEFFS.getD 6 0 * r ^ 6
      + COSH_TAYLOR_COEFFS.getD 8 0 * r ^ 8
  else Real.cosh r

/-- `coef_2` of `riemannian_exp`: the truncated sinh(r)/r Taylor polynomial on
the `norm_tangent_vec < epsilon` branch, `np.sinh(r)/r` otherwise. -/
def riemannian_exp_coef_2 (r epsilon : ℝ) : ℝ :=
  if r < epsilon then
    1 + SINH_TAYLOR_COEFFS.getD 3 0 * r ^ 2
      + SINH_TAYLOR_COEFFS.getD 5 0 * r ^ 4
      + SINH_TAYLOR_COEFFS.getD 7 0 * r ^ 6
      + SINH_TAYLOR_COEFFS.getD 9 0 * r ^ 8
  else Real.sinh r / r

/-- Tail of `HyperbolicSpace.riemannian_exp` after the projection:
`norm_tangent_vec = math.sqrt(embedding_squared_norm(tangent_vec))`, the
coefficient branch, and `coef_1 * ref_point + coef_2 * tangent_vec`. -/
def riemannian_exp_tail {n : ℕ} (ref_point tangent_vec : Fin (n + 1) → ℝ)
    (epsilon : ℝ) : Fin (n + 1) → ℝ :=
  fun i =>
    riemannian_exp_coef_1 (Real.sqrt (embedding_squared_norm tangent_vec)) epsilon
        * ref_point i
      + riemannian_exp_coef_2 (Real.sqrt (embedding_squared_norm tangent_vec)) epsilon
        * tangent_vec i

/-- Body of `HyperbolicSpace.riemannian_exp(ref_point, vector, epsilon)` after
its membership assertion. -/
def riemannian_exp_core {n : ℕ} (ref_point vector : Fin (n + 1) → ℝ)
    (epsilon : ℝ) : Fin (n + 1) → ℝ :=
  riemannian_exp_tail ref_point (projection_to_tangent_space_core ref_point vector)
    epsilon

/-- `HyperbolicSpace.riemannian_exp(ref_point, vector, epsilon=EPSILON)` with its
leading `assert self.belongs(ref_point)` and its call to
`self.projection_to_tangent_space` (which itself asserts). -/
def riemannian_exp {n : ℕ} (ref_point vector : Fin (n + 1) → ℝ) (epsilon : ℝ) :
    Option (Fin (n + 1) → ℝ) :=
  (assertBelongs ref_point).bind fun _ =>
    (projection_to_tangent_space ref_point vector).map fun tangent_vec =>
      riemannian_exp_tail ref_point tangent_vec epsilon

/-- `np.arccosh`: the principal inverse hyperbolic cosine,
`arccosh x = log (x + sqrt (x^2 - 1))`.
Modelled from the spec: the numpy backend's `arccosh` primitive is outside
the two source files; this is its standard principal-branch definition. -/
def arccosh (x : ℝ) : ℝ := Real.log (x + Real.sqrt (x ^ 2 - 1))

/-- Body of `HyperbolicSpace.riemannian_dist(point_a, point_b)` after its
membership assertions: `cosh_angle = -inner_prod / sqrt(sq_norm_a * sq_norm_b)`;
returns `0` if `cosh_angle <= 1` and `arccosh(cosh_angle)` otherwise. -/
def riemannian_dist_core {n : ℕ} (point_a point_b : Fin (n + 1) → ℝ) : ℝ :=
  if -embedding_inner_product point_a point_b /
      Real.sqrt (embedding_squared_norm point_a * embedding_squared_norm point_b)
      ≤ 1 then 0
  else
    arccosh (-embedding_inner_product point_a point_b /
      Real.sqrt (embedding_squared_norm point_a * embedding_squared_norm point_b))

/-- `HyperbolicSpace.riemannian_dist(point_a, point_b)` with its two leading
membership assertions. -/
def riemannian_dist {n : ℕ} (point_a point_b : Fin (n + 1) → ℝ) : Option ℝ :=
  (assertBelongs point_a).bind fun _ =>
    (assertBelongs point_b).map fun _ => riemannian_dist_core point_a point_b

/-- `coef_1` of `riemannian_log`: the truncated angle/sinh(angle) Taylor
polynomial on the `angle < epsilon` branch, `angle / np.sinh(angle)`
otherwise. -/
def riemannian_log_coef_1 (angle epsilon : ℝ) : ℝ :=
  if angle < epsilon then
    1 + INV_SINH_TAYLOR_COEFFS.getD 1 0 * angle ^ 2
      + INV_SINH_TAYLOR_COEFFS.getD 3 0 * angle ^ 4
      + INV_SINH_TAYLOR_COEFFS.getD 5 0 * angle ^ 6
      + INV_SINH_TAYLOR_COEFFS.getD 7 0 * angle ^ 8
  else angle / Real.sinh angle

/-- `coef_2` of `riemannian_log`: the truncated angle/tanh(angle) Taylor
polynomial on the `angle < epsilon` branch, `angle / np.tanh(angle)`
otherwise. -/
def riemannian_log_coef_2 (angle epsilon : ℝ) : ℝ :=
  if angle < epsilon then
    1 + INV_TANH_TAYLOR_COEFFS.getD 1 0 * angle ^ 2
      + INV_TANH_TAYLOR_COEFFS.getD 3 0 * angle ^ 4
      + INV_TANH_TAYLOR_COEFFS.getD 5 0 * angle ^ 6
      + INV_TANH_TAYLOR_COEFFS.getD 7 0 * angle ^ 8
  else angle / Real.tanh angle

/-- Tail of `HyperbolicSpace.riemannian_log` after the distance computation:
the coefficient branch and `coef_1 * point - coef_2 * ref_point`. -/
def riemannian_log_tail {n : ℕ} (ref_point point : Fin (n + 1) → ℝ)
    (angle epsilon : ℝ) : Fin (n + 1) → ℝ :=
  fun i =>
    riemannian_log_coef_1 angle epsilon * point i
      - riemannian_log_coef_2 angle epsilon * ref_point i

/-- Body of `HyperbolicSpace.riemannian_log(ref_point, point, epsilon)` after
its membership assertions, with `angle = riemannian_dist(ref_point, point)`
taken from the assertion-free distance body. -/
def riemannian_log_core {n : ℕ} (ref_point point : Fin (n + 1) → ℝ)
    (epsilon : ℝ) : Fin (n + 1) → ℝ :=
  riemannian_log_tail ref_point point (riemannian_dist_core ref_point point) epsilon

/-- `HyperbolicSpace.riemannian_log(ref_point, point, epsilon=EPSILON)` with its
two leading membership assertions and its call to `self.riemannian_dist`
(which itself asserts). -/
def riemannian_log {n : ℕ} (ref_point point : Fin (n + 1) → ℝ) (epsilon : ℝ) :
    Option (Fin (n + 1) → ℝ) :=
  (assertBelongs ref_point).bind fun _ =>
    (assertBelongs point).bind fun _ =>
      (riemannian_dist ref_point point).map fun angle =>
        riemannian_log_tail ref_point point angle epsilon

/-- Definition following the spec's words for the exponential map
(spec 4.3 `exponential`): project the vector, set
`r = sqrt(squaredNorm(projectedVector))`, use the explicit 4-term even-power
Taylor polynomials with coefficients `1/(2k)!` (cosh) and `1/(2k+1)!` (sinh)
when `r < epsilon` and the closed forms `cosh r`, `sinh r / r` otherwise, and
return `coef1 * refPoint + coef2 * projectedVector`.  To be compared with
`riemannian_exp_core`, which is translated from the source. -/
def riemannian_exp_spec {n : ℕ} (ref_point vector : Fin (n + 1) → ℝ)
    (epsilon : ℝ) : Fin (n + 1) → ℝ :=
  let projected : Fin (n + 1) → ℝ := fun i =>
    vector i -
      embedding_inner_product ref_point vector / embedding_squared_norm ref_point
        * ref_point i
  let r := Real.sqrt (embedding_squared_norm projected)
  let coef1 :=
    if r < epsilon then
      1 + r ^ 2 / 2 + r ^ 4 / 24 + r ^ 6 / 720 + r ^ 8 / 40320
    else Real.cosh r
  let coef2 :=
    if r < epsilon then
      1 + r ^ 2 / 6 + r ^ 4 / 120 + r ^ 6 / 5040 + r ^ 8 / 362880
    else Real.sinh r / r
  fun i => coef1 * ref_point i + coef2 * projected i

end HyperbolicSpace

end Hyperbolic

namespace GeneralLinear

variable {m : ℕ} {K : Type} [Field K] [DecidableEq K]

/-- `GeneralLinear.belongs(point)`:
`det = gs.linalg.det(point); return gs.where(det != 0., True, False)`, for a
single `n x n` matrix.  The backend determinant (not under src/) is modelled
by the mathematical determinant. -/
def belongs (point : Matrix (Fin m) (Fin m) K) : Bool :=
  if point.det ≠ 0 then true else false

/-- `GeneralLinear.belongs` applied to a batch of matrices (a leading batch
axis): the backend takes determinants along the batch and `gs.where` maps the
comparison elementwise. -/
def belongs_batch (points : List (Matrix (Fin m) (Fin m) K)) : List Bool :=
  (points.map Matrix.det).map fun det => if det ≠ 0 then true else false

/-- `GeneralLinear.identity()`: `gs.eye(self.n, self.n)`. -/
def identity : Matrix (Fin m) (Fin m) K := 1

/-- `Matrices.mul` / `GeneralLinear.compose` for two factors.
Modelled from the spec: `compose(*matrices)` is the matrix product (the
`Matrices` base class is not under src/). -/
def mul (a b : Matrix (Fin m) (Fin m) K) : Matrix (Fin m) (Fin m) K := a * b

/-- `GeneralLinear.inv(point)`: `gs.linalg.inv(point)`.
Modelled from the spec: the backend matrix inverse (not under src/) is the
usual inverse `det⁻¹ • adjugate` of an invertible matrix; on the singular
branch (where the backend would raise) it is given the junk value `0`,
never used under the invertibility hypotheses below. -/
def inv (point : Matrix (Fin m) (Fin m) K) : Matrix (Fin m) (Fin m) K :=
  if point.det = 0 then 0 else point.det⁻¹ • point.adjugate

/-- `GeneralLinear.exp(tangent_vec, base_point=None)`: `expm(tangent_vec)` when
`base_point is None`, else `mul(base_point, expm(mul(inv(base_point),
tangent_vec)))` (the recursive call at the identity unfolded).  The backend
matrix exponential `gs.linalg.expm` (not under src/) is passed in abstractly. -/
def exp (expm : Matrix (Fin m) (Fin m) K → Matrix (Fin m) (Fin m) K)
    (tangent_vec : Matrix (Fin m) (Fin m) K)
    (base_point : Option (Matrix (Fin m) (Fin m) K)) : Matrix (Fin m) (Fin m) K :=
  match base_point with
  | Option.none => expm tangent_vec
  | Option.some b => mul b (expm (mul (inv b) tangent_vec))

/-- `GeneralLinear.log(point, base_point=None)`: `logm(point)` when
`base_point is None`, else `mul(base_point, logm(mul(inv(base_point), point)))`.
The backend matrix logarithm `gs.linalg.logm` (not under src/) is passed in
abstractly. -/
def log (logm : Matrix (Fin m) (Fin m) K → Matrix (Fin m) (Fin m) K)
    (point : Matrix (Fin m) (Fin m) K)
    (base_point : Option (Matrix (Fin m) (Fin m) K)) : Matrix (Fin m) (Fin m) K :=
  match base_point with
  | Option.none => logm point
  | Option.some b => mul b (logm (mul (inv b) point))

/-- `GeneralLinear.orbit(point, base_point=None)`: computes
`tangent_vec = log(point, base_point)` eagerly and returns the path function
`time => exp(time * tangent_vec, base_point)`.  The einsum
`'t,...ij->...tij'` (backend, not under src/) is modelled at a single scalar
time as scalar multiplication. -/
def orbit (expm logm : Matrix (Fin m) (Fin m) K → Matrix (Fin m) (Fin m) K)
    (point : Matrix (Fin m) (Fin m) K)
    (base_point : Option (Matrix (Fin m) (Fin m) K)) :
    K → Matrix (Fin m) (Fin m) K :=
  let tangent_vec := log logm point base_point
  fun time => exp expm (time • tangent_vec) base_point

theorem inv_mul_cancel_of_det {b : Matrix (Fin m) (Fin m) K} (hb : b.det ≠ 0) :
    mul (inv b) b = 1 := by
  simp only [mul, inv, if_neg hb, Matrix.smul_mul, Matrix.adjugate_mul]
  rw [smul_smul, inv_mul_cancel₀ hb, one_smul]

theorem mul_inv_cancel_of_det {b : Matrix (Fin m) (Fin m) K} (hb : b.det ≠ 0) :
    mul b (inv b) = 1 := by
  simp only [mul, inv, if_neg hb, Matrix.mul_smul, Matrix.mul_adjugate]
  rw [smul_smul, inv_mul_cancel₀ hb, one_smul]

end GeneralLinear

/-! ### Helper lemmas about the Minkowski embedding algebra -/

theorem embedding_inner_product_comm {n : ℕ} (a b : Fin (n + 1) → ℝ) :
    embedding_inner_product a b = embedding_inner_product b a := by
  simp only [embedding_inner_product, dot]
  rw [show (∑ i, a i * b i) = ∑ i, b i * a i from
    Finset.sum_congr rfl fun i _ => mul_comm _ _]
  ring

theorem embedding_inner_product_comb {n : ℕ} (a x y : Fin (n + 1) → ℝ) (s t : ℝ) :
    embedding_inner_product a (fun i => s * x i - t * y i)
      = s * embedding_inner_product a x - t * embedding_inner_product a y := by
  simp only [embedding_inner_product, dot]
  rw [show (∑ i, a i * (s * x i - t * y i))
      = s * (∑ i, a i * x i) - t * ∑ i, a i * y i by
    rw [Finset.mul_sum, Finset.mul_sum, ← Finset.sum_sub_distrib]
    exact Finset.sum_congr rfl fun i _ => by ring]
  ring

theorem embedding_squared_norm_comb {n : ℕ} (x y : Fin (n + 1) → ℝ) (s t : ℝ) :
    embedding_squared_norm (fun i => s * x i - t * y i)
      = s ^ 2 * embedding_squared_norm x
        - 2 * s * t * embedding_inner_product x y
        + t ^ 2 * embedding_squared_norm y := by
  simp only [embedding_squared_norm, embedding_inner_product, dot]
  rw [show (∑ i, (s * x i - t * y i) * (s * x i - t * y i))
      = s ^ 2 * (∑ i, x i * x i) - 2 * s * t * (∑ i, x i * y i)
        + t ^ 2 * ∑ i, y i * y i by
    rw [Finset.mul_sum, Finset.mul_sum, Finset.mul_sum, ← Finset.sum_sub_distrib,
      ← Finset.sum_add_distrib]
    exact Finset.sum_congr rfl fun i _ => by ring]
  ring

theorem dot_self_nonneg {m : ℕ} (p : Fin m → ℝ) : 0 ≤ dot p p :=
  Finset.sum_nonneg fun i _ => mul_self_nonneg (p i)

/-! ### Helper lemmas about `arccosh` -/

namespace HyperbolicSpace

theorem arccosh_pos {x : ℝ} (hx : 1 < x) : 0 < arccosh x :=
  Real.log_pos (by nlinarith [Real.sqrt_nonneg (x ^ 2 - 1)])

theorem cosh_arccosh {x : ℝ} (hx : 1 < x) : Real.cosh (arccosh x) = x := by
  have hs0 : 0 ≤ Real.sqrt (x ^ 2 - 1) := Real.sqrt_nonneg _
  have hss : Real.sqrt (x ^ 2 - 1) ^ 2 = x ^ 2 - 1 := Real.sq_sqrt (by nlinarith)
  have hy : 0 < x + Real.sqrt (x ^ 2 - 1) := by linarith
  have hinv : (x + Real.sqrt (x ^ 2 - 1))⁻¹ = x - Real.sqrt (x ^ 2 - 1) :=
    inv_eq_of_mul_eq_one_right (by nlinarith)
  rw [arccosh, Real.cosh_eq, Real.exp_log hy, Real.exp_neg, Real.exp_log hy, hinv]
  ring

theorem sinh_arccosh {x : ℝ} (hx : 1 < x) :
    Real.sinh (arccosh x) = Real.sqrt (x ^ 2 - 1) := by
  have hs0 : 0 ≤ Real.sqrt (x ^ 2 - 1) := Real.sqrt_nonneg _
  have hss : Real.sqrt (x ^ 2 - 1) ^ 2 = x ^ 2 - 1 := Real.sq_sqrt (by nlinarith)
  have hy : 0 < x + Real.sqrt (x ^ 2 - 1) := by linarith
  have hinv : (x + Real.sqrt (x ^ 2 - 1))⁻¹ = x - Real.sqrt (x ^ 2 - 1) :=
    inv_eq_of_mul_eq_one_right (by nlinarith)
  rw [arccosh, Real.sinh_eq, Real.exp_log hy, Real.exp_neg, Real.exp_log hy, hinv]
  ring

/-- `assert self.belongs(point)` always raises: either the internal assertion
of `belongs` fails, or `belongs` returns `None`, which is falsy. -/
theorem assertBelongs_eq_none {n : ℕ} (point : Fin (n + 1) → ℝ) :
    assertBelongs point = none := by
  cases hb : belongs point TOLERANCE with
  | none => simp [assertBelongs, hb]
  | some v => simp [assertBelongs, hb, assertVal, PyNone.toBool]

/-- On exact unit-pseudonorm points the distance body reduces to the clamped
`arccosh` of minus the inner product. -/
theorem riemannian_dist_core_unit {n : ℕ} (p q : Fin (n + 1) → ℝ)
    (hp : embedding_squared_norm p = -1) (hq : embedding_squared_norm q = -1) :
    riemannian_dist_core p q =
      if -embedding_inner_product p q ≤ 1 then 0
      else arccosh (-embedding_inner_product p q) := by
  simp only [riemannian_dist_core, hp, hq]
  norm_num [Real.sqrt_one]

/-- C1 (amended): with the always-failing membership assertions discounted,
the exponential map inverts the logarithm map: for points `p`, `q` of
Minkowski squared norm exactly `-1` whose geodesic angle is at least
`EPSILON` (the closed-form branch), `riemannian_exp(p, riemannian_log(p, q))`
recovers `q` exactly — in particular within the claimed `1e-8` tolerance. -/
theorem riemannian_exp_log_roundtrip {n : ℕ} (p q : Fin (n + 1) → ℝ)
    (hp : embedding_squared_norm p = -1) (hq : embedding_squared_norm q = -1)
    (hd : EPSILON ≤ riemannian_dist_core p q) :
    riemannian_exp_core p (riemannian_log_core p q EPSILON) EPSILON = q := by
  have heps : (0 : ℝ) < EPSILON := by norm_num [EPSILON]
  have hdist_eq := riemannian_dist_core_unit p q hp hq
  by_cases hc : -embedding_inner_product p q ≤ 1
  · rw [hdist_eq, if_pos hc] at hd; linarith
  push_neg at hc
  have hθeq : riemannian_dist_core p q = arccosh (-embedding_inner_product p q) := by
    rw [hdist_eq, if_neg (not_le.mpr hc)]
  set c : ℝ := -embedding_inner_product p q with hcdef
  set θ : ℝ := arccosh c with hθdef
  clear_value c
  have hθeq' : riemannian_dist_core p q = θ := hθeq
  clear_value θ
  have hθpos : 0 < θ := by rw [hθdef]; exact arccosh_pos hc
  have hcosh : Real.cosh θ = c := by rw [hθdef]; exact cosh_arccosh hc
  have hsinhpos : 0 < Real.sinh θ := by
    rw [hθdef, sinh_arccosh hc]
    exact Real.sqrt_pos.mpr (by nlinarith)
  have hsinh_sq : Real.sinh θ ^ 2 = c ^ 2 - 1 := by
    rw [hθdef, sinh_arccosh hc]
    exact Real.sq_sqrt (by nlinarith)
  have hεθ : EPSILON ≤ θ := hθeq' ▸ hd
  have hnotlt : ¬(θ < EPSILON) := not_lt.mpr hεθ
  have hinner_pq : embedding_inner_product p q = -c := by rw [hcdef, neg_neg]
  have hpp : embedding_inner_product p p = -1 := hp
  have hqq : embedding_inner_product q q = -1 := hq
  -- the logarithm on the closed-form branch
  have hlog : riemannian_log_core p q EPSILON =
      fun i => θ / Real.sinh θ * q i - θ * Real.cosh θ / Real.sinh θ * p i := by
    funext i
    simp only [riemannian_log_core, riemannian_log_tail, riemannian_log_coef_1,
      riemannian_log_coef_2, hθeq, if_neg hnotlt]
    rw [Real.tanh_eq_sinh_div_cosh, div_div_eq_mul_div]
  -- the logarithm is already tangent at p, so projection leaves it unchanged
  have hpv : embedding_inner_product p (riemannian_log_core p q EPSILON) = 0 := by
    rw [hlog, embedding_inner_product_comb, hinner_pq, hpp, hcosh]
    field_simp
    ring
  have hproj : projection_to_tangent_space_core p (riemannian_log_core p q EPSILON)
      = riemannian_log_core p q EPSILON := by
    funext i
    simp only [projection_to_tangent_space_core, hpv]
    ring
  -- the squared norm of the logarithm is the squared angle
  have hv_sqnorm : embedding_squared_norm (riemannian_log_core p q EPSILON)
      = θ ^ 2 := by
    rw [hlog, embedding_squared_norm_comb, hq, hp,
      embedding_inner_product_comm q p, hinner_pq, hcosh]
    have hs : Real.sinh θ ≠ 0 := hsinhpos.ne'
    field_simp
    linear_combination (-(θ ^ 2) * Real.sinh θ ^ 4) * hsinh_sq
  have hr : Real.sqrt (embedding_squared_norm (riemannian_log_core p q EPSILON))
      = θ := by rw [hv_sqnorm]; exact Real.sqrt_sq hθpos.le
  -- assemble the exponential
  funext i
  simp only [riemannian_exp_core, hproj, riemannian_exp_tail, hr,
    riemannian_exp_coef_1, riemannian_exp_coef_2, if_neg hnotlt]
  rw [hlog, hcosh]
  have hs : Real.sinh θ ≠ 0 := hsinhpos.ne'
  field_simp
  ring

/-! ### Concrete evaluation helpers at `p = [1,0,0]`, `q = [cosh 1, sinh 1, 0]` -/

theorem sum_univ_three' (f : Fin (2 + 1) → ℝ) : ∑ i, f i = f 0 + f 1 + f 2 :=
  Fin.sum_univ_three f

theorem sqnorm_base : embedding_squared_norm (![1, 0, 0] : Fin 3 → ℝ) = -1 := by
  norm_num [embedding_squared_norm, embedding_inner_product, dot, sum_univ_three']

theorem sqnorm_target :
    embedding_squared_norm (![Real.cosh 1, Real.sinh 1, 0] : Fin 3 → ℝ) = -1 := by
  have h := Real.cosh_sq_sub_sinh_sq 1
  norm_num [embedding_squared_norm, embedding_inner_product, dot, sum_univ_three']
  nlinarith [h]

theorem dist_base_target :
    riemannian_dist_core (![1, 0, 0] : Fin 3 → ℝ) ![Real.cosh 1, Real.sinh 1, 0]
      = 1 := by
  have hinner : embedding_inner_product (![1, 0, 0] : Fin 3 → ℝ)
      ![Real.cosh 1, Real.sinh 1, 0] = -Real.cosh 1 := by
    norm_num [embedding_inner_product, dot, sum_univ_three']
    ring
  have hco : (1 : ℝ) < Real.cosh 1 := Real.one_lt_cosh.mpr one_ne_zero
  rw [riemannian_dist_core_unit _ _ sqnorm_base sqnorm_target, hinner, neg_neg,
    if_neg (not_le.mpr hco)]
  have hsq : Real.cosh 1 ^ 2 - 1 = Real.sinh 1 ^ 2 := by
    nlinarith [Real.cosh_sq_sub_sinh_sq 1]
  rw [arccosh, hsq, Real.sqrt_sq (Real.sinh_nonneg_iff.mpr zero_le_one),
    Real.cosh_add_sinh, Real.log_exp]

theorem eps_le_dist_base_target :
    EPSILON ≤ riemannian_dist_core (![1, 0, 0] : Fin 3 → ℝ)
      ![Real.cosh 1, Real.sinh 1, 0] := by
  rw [dist_base_target]; norm_num [EPSILON]

/-- Witness for the round-trip theorem at `p = [1,0,0]`,
`q = [cosh 1, sinh 1, 0]`. -/
theorem riemannian_exp_log_roundtrip_witness :
    (embedding_squared_norm (![1, 0, 0] : Fin 3 → ℝ) = -1 ∧
     embedding_squared_norm (![Real.cosh 1, Real.sinh 1, 0] : Fin 3 → ℝ) = -1 ∧
     EPSILON ≤ riemannian_dist_core (![1, 0, 0] : Fin 3 → ℝ)
       ![Real.cosh 1, Real.sinh 1, 0]) ∧
    riemannian_exp_core (![1, 0, 0] : Fin 3 → ℝ)
      (riemannian_log_core (![1, 0, 0] : Fin 3 → ℝ)
        ![Real.cosh 1, Real.sinh 1, 0] EPSILON) EPSILON
      = ![Real.cosh 1, Real.sinh 1, 0] :=
  ⟨⟨sqnorm_base, sqnorm_target, eps_le_dist_base_target⟩,
   riemannian_exp_log_roundtrip ![1, 0, 0] ![Real.cosh 1, Real.sinh 1, 0]
     sqnorm_base sqnorm_target eps_le_dist_base_target⟩

/-- C1 as literally stated fails on the code: even at valid points (here
`p = q = [1,0,0]`, which satisfies the membership invariant), the composition
`riemannian_exp(p, riemannian_log(p, q))` raises `AssertionError` instead of
returning a value approximately equal to `q`. -/
theorem riemannian_exp_log_roundtrip_raises :
    |embedding_squared_norm (![1, 0, 0] : Fin 3 → ℝ) + 1| < TOLERANCE ∧
    (riemannian_log (![1, 0, 0] : Fin 3 → ℝ) ![1, 0, 0] EPSILON).bind
      (fun v => riemannian_exp (![1, 0, 0] : Fin 3 → ℝ) v EPSILON)
      = Option.none := by
  constructor
  · rw [sqnorm_base]; norm_num [TOLERANCE]
  · simp [riemannian_log, assertBelongs_eq_none]

/-- C2: every HyperbolicSpace operation that checks membership as a
precondition raises `AssertionError` on every input and never returns a
value, because `belongs` returns `None` and each caller executes
`assert self.belongs(...)`, asserting that falsy `None`. -/
theorem precondition_ops_always_raise :
    ∀ (n : ℕ) (p q v : Fin (n + 1) → ℝ) (epsilon : ℝ),
      extrinsic_to_intrinsic_coords p = Option.none ∧
      projection_to_tangent_space p v = Option.none ∧
      riemannian_exp p v epsilon = Option.none ∧
      riemannian_log p q epsilon = Option.none ∧
      riemannian_dist p q = Option.none := by
  intro n p q v epsilon
  simp [extrinsic_to_intrinsic_coords, projection_to_tangent_space,
    riemannian_exp, riemannian_log, riemannian_dist, assertBelongs_eq_none]

/-! ### The exponential-map formula (C3) -/

theorem exp_coef_1_eq (r epsilon : ℝ) :
    riemannian_exp_coef_1 r epsilon =
      if r < epsilon then 1 + r ^ 2 / 2 + r ^ 4 / 24 + r ^ 6 / 720 + r ^ 8 / 40320
      else Real.cosh r := by
  rw [riemannian_exp_coef_1]
  norm_num [COSH_TAYLOR_COEFFS, Nat.factorial]
  split_ifs <;> ring

theorem exp_coef_2_eq (r epsilon : ℝ) :
    riemannian_exp_coef_2 r epsilon =
      if r < epsilon then 1 + r ^ 2 / 6 + r ^ 4 / 120 + r ^ 6 / 5040 + r ^ 8 / 362880
      else Real.sinh r / r := by
  rw [riemannian_exp_coef_2]
  norm_num [SINH_TAYLOR_COEFFS, Nat.factorial]
  split_ifs <;> ring

theorem projection_core_div_form {n : ℕ} (ref_point vector : Fin (n + 1) → ℝ) :
    projection_to_tangent_space_core ref_point vector = fun i =>
      vector i -
        embedding_inner_product ref_point vector / embedding_squared_norm ref_point
          * ref_point i := by
  funext i
  simp only [projection_to_tangent_space_core]
  rw [mul_div_right_comm]

/-- C3 (amended): with the always-failing membership assertion discounted, the
body of `riemannian_exp` computes exactly what the spec describes: project the
vector, take `r = sqrt(squaredNorm(projection))`, use the truncated cosh and
sinh(r)/r Taylor polynomials (coefficients `1/(2k)!` and `1/(2k+1)!`, terms up
to `r^8`) when `r < epsilon` and `cosh r`, `sinh r / r` otherwise, and return
`coef1 * refPoint + coef2 * projectedVector`. -/
theorem riemannian_exp_matches_spec :
    ∀ (n : ℕ) (ref_point vector : Fin (n + 1) → ℝ) (epsilon : ℝ),
      riemannian_exp_core ref_point vector epsilon
        = riemannian_exp_spec ref_point vector epsilon := by
  intro n ref_point vector epsilon
  funext i
  simp only [riemannian_exp_core, riemannian_exp_tail, riemannian_exp_spec,
    projection_core_div_form, exp_coef_1_eq, exp_coef_2_eq]

/-- C3 as literally stated fails on the code: at the valid reference point
`[1,0,0]` (which satisfies the membership invariant), `riemannian_exp` raises
`AssertionError` instead of returning `coef1*refPoint + coef2*projection`. -/
theorem riemannian_exp_always_raises :
    |embedding_squared_norm (![1, 0, 0] : Fin 3 → ℝ) + 1| < TOLERANCE ∧
    riemannian_exp (![1, 0, 0] : Fin 3 → ℝ) ![0, 1, 0] EPSILON = Option.none := by
  constructor
  · rw [sqnorm_base]; norm_num [TOLERANCE]
  · simp [riemannian_exp, assertBelongs_eq_none]

/-! ### Distance clamp (C4) -/

/-- C4 (amended): with the always-failing membership assertions discounted,
the body of `riemannian_dist` computes
`coshAngle = -innerProduct(a,b)/sqrt(squaredNorm(a)*squaredNorm(b))`, returns
`0` when `coshAngle <= 1` and `arccosh(coshAngle)` otherwise; in particular
for any point with the membership invariant, the distance to itself is
exactly `0` via that clamp. -/
theorem riemannian_dist_clamp :
    ∀ (n : ℕ) (a b : Fin (n + 1) → ℝ),
      (riemannian_dist_core a b =
        if -embedding_inner_product a b /
            Real.sqrt (embedding_squared_norm a * embedding_squared_norm b) ≤ 1
        then 0
        else arccosh (-embedding_inner_product a b /
            Real.sqrt (embedding_squared_norm a * embedding_squared_norm b))) ∧
      (|embedding_squared_norm a + 1| < TOLERANCE → riemannian_dist_core a a = 0) := by
  intro n a b
  refine ⟨rfl, fun ha => ?_⟩
  have hbounds := abs_lt.mp ha
  have hneg : embedding_squared_norm a < 0 := by
    have ht : TOLERANCE = 1e-12 := rfl
    rw [ht] at hbounds
    linarith [hbounds.2]
  have hsqrt : Real.sqrt (embedding_squared_norm a * embedding_squared_norm a)
      = -embedding_squared_norm a := by
    rw [show embedding_squared_norm a * embedding_squared_norm a
        = (-embedding_squared_norm a) ^ 2 by ring]
    exact Real.sqrt_sq (by linarith)
  have hinner : embedding_inner_product a a = embedding_squared_norm a := rfl
  rw [riemannian_dist_core, hinner, hsqrt,
    div_self (by exact neg_ne_zero.mpr hneg.ne), if_pos le_rfl]

/-- Witness for the distance clamp at `p = [1,0,0]`. -/
theorem riemannian_dist_clamp_witness :
    |embedding_squared_norm (![1, 0, 0] : Fin 3 → ℝ) + 1| < TOLERANCE ∧
    riemannian_dist_core (![1, 0, 0] : Fin 3 → ℝ) ![1, 0, 0] = 0 :=
  have h : |embedding_squared_norm (![1, 0, 0] : Fin 3 → ℝ) + 1| < TOLERANCE := by
    rw [sqnorm_base]; norm_num [TOLERANCE]
  ⟨h, (riemannian_dist_clamp 2 ![1, 0, 0] ![1, 0, 0]).2 h⟩

/-- C4 as literally stated fails on the code: at the valid point `[1,0,0]`,
`riemannian_dist(p, p)` raises `AssertionError` instead of returning `0`. -/
theorem riemannian_dist_always_raises :
    |embedding_squared_norm (![1, 0, 0] : Fin 3 → ℝ) + 1| < TOLERANCE ∧
    riemannian_dist (![1, 0, 0] : Fin 3 → ℝ) ![1, 0, 0] = Option.none := by
  constructor
  · rw [sqnorm_base]; norm_num [TOLERANCE]
  · simp [riemannian_dist, assertBelongs_eq_none]

/-! ### Tangent projection orthogonality (C5) -/

/-- C5 (amended): with the always-failing membership assertion discounted, the
body of `projection_to_tangent_space` returns
`vector - (innerProduct(refPoint,vector)/squaredNorm(refPoint)) * refPoint`,
and for any reference point with the membership invariant the Minkowski inner
product of the reference point with the result is exactly `0`. -/
theorem projection_orthogonal :
    ∀ (n : ℕ) (ref_point vector : Fin (n + 1) → ℝ),
      |embedding_squared_norm ref_point + 1| < TOLERANCE →
      (projection_to_tangent_space_core ref_point vector = fun i =>
        vector i -
          embedding_inner_product ref_point vector / embedding_squared_norm ref_point
            * ref_point i) ∧
      embedding_inner_product ref_point
        (projection_to_tangent_space_core ref_point vector) = 0 := by
  intro n ref_point vector href
  have hbounds := abs_lt.mp href
  have hneg : embedding_squared_norm ref_point < 0 := by
    have ht : TOLERANCE = 1e-12 := rfl
    rw [ht] at hbounds
    linarith [hbounds.2]
  refine ⟨projection_core_div_form ref_point vector, ?_⟩
  rw [projection_core_div_form,
    show (fun i => vector i -
        embedding_inner_product ref_point vector / embedding_squared_norm ref_point
          * ref_point i)
      = fun i => 1 * vector i -
        embedding_inner_product ref_point vector / embedding_squared_norm ref_point
          * ref_point i from funext fun i => by ring,
    embedding_inner_product_comb,
    show embedding_inner_product ref_point ref_point
      = embedding_squared_norm ref_point from rfl]
  field_simp
  rw [mul_div_assoc, div_self hneg.ne, mul_one, sub_self]

/-- Witness for the projection orthogonality at `refPoint = [1,0,0]`,
`vector = [0,1,0]`. -/
theorem projection_orthogonal_witness :
    |embedding_squared_norm (![1, 0, 0] : Fin 3 → ℝ) + 1| < TOLERANCE ∧
    embedding_inner_product (![1, 0, 0] : Fin 3 → ℝ)
      (projection_to_tangent_space_core (![1, 0, 0] : Fin 3 → ℝ) ![0, 1, 0]) = 0 :=
  have h : |embedding_squared_norm (![1, 0, 0] : Fin 3 → ℝ) + 1| < TOLERANCE := by
    rw [sqnorm_base]; norm_num [TOLERANCE]
  ⟨h, (projection_orthogonal 2 ![1, 0, 0] ![0, 1, 0] h).2⟩

/-- C5 as literally stated fails on the code: at the valid reference point
`[1,0,0]`, `projection_to_tangent_space` raises `AssertionError` instead of
returning the projected vector. -/
theorem projection_always_raises :
    |embedding_squared_norm (![1, 0, 0] : Fin 3 → ℝ) + 1| < TOLERANCE ∧
    projection_to_tangent_space (![1, 0, 0] : Fin 3 → ℝ) ![0, 1, 0]
      = Option.none := by
  constructor
  · rw [sqnorm_base]; norm_num [TOLERANCE]
  · simp [projection_to_tangent_space, assertBelongs_eq_none]

/-! ### Intrinsic-to-extrinsic coordinates (C8) -/

theorem i2e_sqnorm {d : ℕ} (p : Fin d → ℝ) :
    embedding_squared_norm (intrinsic_to_extrinsic_coords p) = -1 := by
  have hdotnn : 0 ≤ dot p p := dot_self_nonneg p
  have hsq : Real.sqrt (1 + dot p p) * Real.sqrt (1 + dot p p) = 1 + dot p p :=
    Real.mul_self_sqrt (by linarith)
  have hdot : dot (intrinsic_to_extrinsic_coords p) (intrinsic_to_extrinsic_coords p)
      = Real.sqrt (1 + dot p p) * Real.sqrt (1 + dot p p) + dot p p := by
    simp [intrinsic_to_extrinsic_coords, dot, Fin.sum_univ_succ]
  simp only [embedding_squared_norm, embedding_inner_product]
  rw [hdot]
  simp only [intrinsic_to_extrinsic_coords, Fin.cons_zero]
  linear_combination (-1 : ℝ) * hsq

/-- C8: for every real vector `p` of length `d`,
`intrinsic_to_extrinsic_coords` returns the length-`d+1` vector whose first
coordinate is `sqrt(1 + <p,p>)` and whose remaining coordinates equal `p`; the
result has Minkowski squared norm exactly `-1`, so the membership test passes;
in particular the intrinsic point `[0,0]` maps to `[1,0,0]`. -/
theorem intrinsic_to_extrinsic_on_hyperboloid :
    (∀ (d : ℕ) (p : Fin d → ℝ),
      intrinsic_to_extrinsic_coords p 0 = Real.sqrt (1 + dot p p) ∧
      (∀ i : Fin d, intrinsic_to_extrinsic_coords p i.succ = p i) ∧
      embedding_squared_norm (intrinsic_to_extrinsic_coords p) = -1 ∧
      belongs (intrinsic_to_extrinsic_coords p) TOLERANCE = some PyNone.none) ∧
    intrinsic_to_extrinsic_coords (![0, 0] : Fin 2 → ℝ) = ![1, 0, 0] := by
  constructor
  · intro d p
    refine ⟨Fin.cons_zero _ _, fun i => Fin.cons_succ _ _ _, i2e_sqnorm p, ?_⟩
    rw [belongs, if_pos]
    rw [i2e_sqnorm p]
    norm_num [TOLERANCE]
  · funext i
    refine Fin.cases ?_ (fun j => ?_) i
    · show Real.sqrt (1 + dot (![0, 0] : Fin 2 → ℝ) ![0, 0]) = _
      norm_num [dot, Fin.sum_univ_two, Real.sqrt_one]
    · simp [intrinsic_to_extrinsic_coords, Fin.cons_succ, Matrix.cons_val_succ]

/-! ### The membership check itself (C9) -/

/-- C9: `belongs(point, tolerance)` (default tolerance `1e-12`) raises its
precondition error exactly when `|squaredNorm(point) + 1| >= tolerance`; when
the invariant holds within tolerance it does not raise (it returns `None`,
correcting nothing). -/
theorem belongs_domain_check :
    TOLERANCE = 1e-12 ∧
    ∀ (n : ℕ) (point : Fin (n + 1) → ℝ) (tolerance : ℝ),
      (belongs point tolerance = Option.none ↔
        tolerance ≤ |embedding_squared_norm point + 1|) ∧
      (|embedding_squared_norm point + 1| < tolerance →
        belongs point tolerance = some PyNone.none) := by
  refine ⟨rfl, fun n point tolerance => ⟨?_, fun h => ?_⟩⟩
  · rw [belongs]
    split_ifs with h
    · exact iff_of_false (by simp) (not_le.mpr h)
    · exact iff_of_true rfl (not_lt.mp h)
  · rw [belongs, if_pos h]

/-- Witness for the membership check at `[1,0,0]`. -/
theorem belongs_domain_check_witness :
    |embedding_squared_norm (![1, 0, 0] : Fin 3 → ℝ) + 1| < TOLERANCE ∧
    belongs (![1, 0, 0] : Fin 3 → ℝ) TOLERANCE = some PyNone.none :=
  have h : |embedding_squared_norm (![1, 0, 0] : Fin 3 → ℝ) + 1| < TOLERANCE := by
    rw [sqnorm_base]; norm_num [TOLERANCE]
  ⟨h, (belongs_domain_check.2 2 ![1, 0, 0] TOLERANCE).2 h⟩

end HyperbolicSpace

namespace GeneralLinear

/-- Shared cancellation: the base-point case of `exp` undoes the base-point
case of `log`, given an invertible base point and the backend round trip on
the translated argument. -/
theorem exp_log_some_eq {m : ℕ} {K : Type} [Field K] [DecidableEq K]
    (expm logm : Matrix (Fin m) (Fin m) K → Matrix (Fin m) (Fin m) K)
    (g b : Matrix (Fin m) (Fin m) K) (hb : b.det ≠ 0)
    (h1 : expm (logm (mul (inv b) g)) = mul (inv b) g) :
    exp expm (log logm g (Option.some b)) (Option.some b) = g := by
  have hinvmul : inv b * b = 1 := inv_mul_cancel_of_det hb
  have hmulinv : b * inv b = 1 := mul_inv_cancel_of_det hb
  have h1' : expm (logm (inv b * g)) = inv b * g := h1
  simp only [exp, log, mul] at h1' ⊢
  rw [← Matrix.mul_assoc, hinvmul, Matrix.one_mul, h1', ← Matrix.mul_assoc,
    hmulinv, Matrix.one_mul]

/-- C6: for an invertible base point `b` and any `g`, assuming the backend
matrix exponential and logarithm are mutually inverse on the arguments in
play, `exp(log(g, b), b) = g`; with the base point omitted, `exp(log(g)) = g`
under the same backend assumption. -/
theorem exp_log_inverse {m : ℕ} {K : Type} [Field K] [DecidableEq K]
    (expm logm : Matrix (Fin m) (Fin m) K → Matrix (Fin m) (Fin m) K)
    (g b : Matrix (Fin m) (Fin m) K) (hb : b.det ≠ 0)
    (h1 : expm (logm (mul (inv b) g)) = mul (inv b) g)
    (h2 : expm (logm g) = g) :
    exp expm (log logm g (Option.some b)) (Option.some b) = g ∧
    exp expm (log logm g Option.none) Option.none = g :=
  ⟨exp_log_some_eq expm logm g b hb h1, by simp only [exp, log]; exact h2⟩

/-- Witness for C6 over `1x1` rational matrices with the identity backend. -/
theorem exp_log_inverse_witness :
    ((1 : Matrix (Fin 1) (Fin 1) ℚ).det ≠ 0 ∧
     (fun X : Matrix (Fin 1) (Fin 1) ℚ => X)
       ((fun X : Matrix (Fin 1) (Fin 1) ℚ => X) (mul (inv 1) 1)) = mul (inv 1) 1) ∧
    exp (fun X : Matrix (Fin 1) (Fin 1) ℚ => X)
      (log (fun X : Matrix (Fin 1) (Fin 1) ℚ => X) 1 (Option.some 1))
      (Option.some 1) = 1 :=
  have hdet : (1 : Matrix (Fin 1) (Fin 1) ℚ).det ≠ 0 := by simp
  ⟨⟨hdet, rfl⟩,
   (exp_log_inverse (fun X => X) (fun X => X) 1 1 hdet rfl rfl).1⟩

/-- C7: `orbit(point, basePoint)` is the path function
`t => exp(t * log(point, basePoint), basePoint)`; under the invertibility of
the base point and the backend assumptions `expm 0 = 1` and the round trip on
the arguments in play, it satisfies `path(0) = basePoint` and
`path(1) = point` (and with the base point omitted, `path(0) = identity` and
`path(1) = point`). -/
theorem orbit_boundary {m : ℕ} {K : Type} [Field K] [DecidableEq K]
    (expm logm : Matrix (Fin m) (Fin m) K → Matrix (Fin m) (Fin m) K)
    (g b : Matrix (Fin m) (Fin m) K) (hb : b.det ≠ 0)
    (hzero : expm 0 = 1)
    (h1 : expm (logm (mul (inv b) g)) = mul (inv b) g)
    (h2 : expm (logm g) = g) :
    (∀ t : K, orbit expm logm g (Option.some b) t
      = exp expm (t • log logm g (Option.some b)) (Option.some b)) ∧
    orbit expm logm g (Option.some b) 0 = b ∧
    orbit expm logm g (Option.some b) 1 = g ∧
    orbit expm logm g Option.none 0 = identity ∧
    orbit expm logm g Option.none 1 = g := by
  refine ⟨fun t => rfl, ?_, ?_, ?_, ?_⟩
  · simp only [orbit, exp, mul, zero_smul, Matrix.mul_zero, hzero, Matrix.mul_one]
  · simp only [orbit, one_smul]
    exact exp_log_some_eq expm logm g b hb h1
  · simp only [orbit, exp, log, zero_smul, hzero, identity]
  · simp only [orbit, exp, log, one_smul]
    exact h2

/-- Witness for C7 over `1x1` rational matrices with the constant backend
`expm = 1`, `logm = 0`. -/
theorem orbit_boundary_witness :
    ((1 : Matrix (Fin 1) (Fin 1) ℚ).det ≠ 0 ∧
     (fun _ : Matrix (Fin 1) (Fin 1) ℚ => (1 : Matrix (Fin 1) (Fin 1) ℚ)) 0 = 1 ∧
     (fun _ : Matrix (Fin 1) (Fin 1) ℚ => (1 : Matrix (Fin 1) (Fin 1) ℚ))
       ((fun _ : Matrix (Fin 1) (Fin 1) ℚ => (0 : Matrix (Fin 1) (Fin 1) ℚ))
         (mul (inv 1) 1)) = mul (inv 1) 1) ∧
    orbit (fun _ : Matrix (Fin 1) (Fin 1) ℚ => (1 : Matrix (Fin 1) (Fin 1) ℚ))
      (fun _ => 0) 1 (Option.some 1) 0 = 1 ∧
    orbit (fun _ : Matrix (Fin 1) (Fin 1) ℚ => (1 : Matrix (Fin 1) (Fin 1) ℚ))
      (fun _ => 0) 1 (Option.some 1) 1 = 1 :=
  have hdet : (1 : Matrix (Fin 1) (Fin 1) ℚ).det ≠ 0 := by simp
  have h1 : (fun _ : Matrix (Fin 1) (Fin 1) ℚ => (1 : Matrix (Fin 1) (Fin 1) ℚ))
      ((fun _ : Matrix (Fin 1) (Fin 1) ℚ => (0 : Matrix (Fin 1) (Fin 1) ℚ))
        (mul (inv 1) 1)) = mul (inv 1) 1 := by
    simp [mul, inv, Matrix.adjugate_one]
  have horb := orbit_boundary (fun _ : Matrix (Fin 1) (Fin 1) ℚ => 1)
    (fun _ => 0) 1 1 hdet rfl h1 rfl
  ⟨⟨hdet, rfl, h1⟩, horb.2.1, horb.2.2.1⟩

/-- C10: `GeneralLinear.belongs` returns a boolean (never raises), true
exactly when the determinant is nonzero, elementwise over a leading batch
axis; the 2x2 zero matrix yields `false`. -/
theorem belongs_iff_det_ne_zero :
    (∀ (m : ℕ) (A : Matrix (Fin m) (Fin m) ℚ), belongs A = true ↔ A.det ≠ 0) ∧
    (∀ (m : ℕ) (points : List (Matrix (Fin m) (Fin m) ℚ)),
      belongs_batch points = points.map belongs) ∧
    belongs (0 : Matrix (Fin 2) (Fin 2) ℚ) = false := by
  refine ⟨fun m A => ?_, fun m points => ?_, ?_⟩
  · simp [belongs]
  · rw [belongs_batch, List.map_map]
    rfl
  · simp [belongs]

end GeneralLinear

end Geomstats
